import Mathlib

/-
Verification of the covariance-based CCA engine of meegkit (src/meegkit/utils/cca.py).

The numeric model is a shallow embedding over the rationals.  Matrices are
row-major lists of rows.  The two external numerical collaborators that the
source calls but whose code is outside this repository slice -- scipy's
eigendecomposition (linalg.eigh), scipy/numpy SVD, and the joint-PCA helper
(meegkit.utils.denoise.pca) -- are abstract function parameters collected in
an Env record, together with scalar square root and real power, which are not
rational-valued operations.  Everything the repository file itself computes
(sorting, thresholding, masking, block assembly, matrix products, slicing,
the argument-validation ladder and the 3-D page dispatch with its numpy
assignment semantics) is translated directly from the source.
-/

/-- Row-major matrix of rationals. -/
abbrev Mat : Type := List (List ℚ)

/-- Number of columns as numpy reports shape[1] for a well-formed 2-D array:
the length of the first row (0 for an empty matrix). -/
def matCols (M : Mat) : Nat := (M.headD []).length

/-- Dot product of two equal-length vectors. -/
def dotL (u v : List ℚ) : ℚ := (List.zipWith (fun a b => a * b) u v).sum

/-- Transpose of a row-major matrix. -/
def transposeM (M : Mat) : Mat :=
  (List.range (matCols M)).map (fun j => M.map (fun r => r.getD j 0))

/-- Matrix product, modelling np.dot on 2-D arrays. -/
def matmul (A B : Mat) : Mat :=
  A.map (fun row => (transposeM B).map (fun col => dotL row col))

/-- Scalar multiple of a matrix. -/
def matScale (M : Mat) (c : ℚ) : Mat := M.map (fun r => r.map (fun x => x * c))

/-- Square diagonal matrix with the given diagonal, modelling np.diag. -/
def diagM (l : List ℚ) : Mat :=
  (List.range l.length).map
    (fun i => (List.range l.length).map (fun j => if i = j then l.getD i 0 else 0))

/-- Zero matrix of the given shape, modelling np.zeros. -/
def zerosMat (rows cols : Nat) : Mat :=
  List.replicate rows (List.replicate cols 0)

/-- Overwrite the entries of a row starting at column c with the row s,
modelling the 1-D slice assignment row[c : c + len(s)] = s for conforming
shapes. -/
def overwriteFrom (row : List ℚ) (c : Nat) (s : List ℚ) : List ℚ :=
  row.take c ++ s ++ row.drop (c + s.length)

/-- Overwrite the block of Z whose top-left corner is (r, c) with S, modelling
the 2-D slice assignment Z[r : r + S.rows, c : c + S.cols] = S for conforming
shapes. -/
def setBlock (Z : Mat) (r c : Nat) (S : Mat) : Mat :=
  Z.take r
    ++ List.zipWith (fun srow zrow => overwriteFrom zrow c srow) S ((Z.drop r).take S.length)
    ++ Z.drop (r + S.length)

/-- Boolean-mask selection, modelling numpy fancy indexing a[mask]. -/
def maskSelect {α : Type} : List α → List Bool → List α
  | a :: as, b :: bs => if b then a :: maskSelect as bs else maskSelect as bs
  | _, _ => []

/-- Top-left m-by-m block C[:m, :m]. -/
def subTL (C : Mat) (m : Nat) : Mat := (C.take m).map (fun r => r.take m)

/-- Bottom-right block C[m:, m:]. -/
def subBR (C : Mat) (m : Nat) : Mat := (C.drop m).map (fun r => r.drop m)

/-- Identity matrix of size n. -/
def identityM (n : Nat) : Mat :=
  (List.range n).map (fun i => (List.range n).map (fun j => if i = j then (1 : ℚ) else 0))

/-- Diagonal of a square matrix as a vector. -/
def diagOf (M : Mat) : List ℚ :=
  (List.range M.length).map (fun i => (M.getD i []).getD i 0)

/-- Maximum of a list as np.max computes it on a nonempty array (junk value 0
on the empty list, where numpy raises instead; every use below is guarded by
nonemptiness). -/
def npMax (l : List ℚ) : ℚ := l.foldr max (l.headD 0)

/-- Eigenvalue/index pairs sorted by descending eigenvalue, modelling
idx = np.argsort(d)[::-1] together with d[idx]: a stable ascending sort of
the (value, position) pairs followed by reversal.  Tie order among equal
eigenvalues is unspecified in numpy (quicksort); the model fixes one order. -/
def sortIdxDesc (d : List ℚ) : List (ℚ × Nat) :=
  (List.insertionSort (fun a b => a.1 ≤ b.1) (d.zip (List.range d.length))).reverse

/-- Abstract numerical collaborators: the decompositions the source delegates
to scipy/numpy (eigh, svd), the joint-PCA stage delegated to
meegkit.utils.denoise.pca (code outside this repository slice; its contract
is the section 4.3 collaborator contract), the irrational scalar operations
sqrt and power, and the covariance estimator cov_lags used only by the
raw-data mode (also outside the slice). -/
structure Env where
  eigh : Mat → List ℚ × Mat
  svd : Mat → Mat × List ℚ × Mat
  pca : Mat → Mat × List ℚ
  sqrt : ℚ → ℚ
  rpow : ℚ → ℚ → ℚ
  covLags : (Mat × Nat)

/-- Errors the embedded code can raise.  The first six carry the distinct
Python messages of cca.py (recorded here in comments):
attributeErrorXorXY    = AttributeError, raised when exactly one of X, Y is given;
runtimeErrorCovUndefined = RuntimeError, covariance matrix should be defined;
runtimeErrorMUndefined = RuntimeError, m should be defined;
runtimeErrorNotSquare  = RuntimeError, covariance matrix should be square;
runtimeErrorOnlyCov    = RuntimeError, only covariance should be defined at this point;
runtimeErrorDim        = RuntimeError, covariance should be 3D at most.
The rest are errors numpy itself raises: indexError models the IndexError
from reading shape[1] of a 1-D array; valueErrorAmbiguous the ValueError
from taking the truth value of a multi-element array; valueErrorBroadcast
the ValueError from a shape-mismatched slice assignment; typeError the
TypeError from adding None to an array. -/
inductive PyError where
  | attributeErrorXorXY
  | runtimeErrorCovUndefined
  | runtimeErrorMUndefined
  | runtimeErrorNotSquare
  | runtimeErrorOnlyCov
  | runtimeErrorDim
  | indexError
  | valueErrorAmbiguous
  | valueErrorBroadcast
  | typeError
deriving DecidableEq

/-- Classification of errors under the specification's taxonomy: the
AttributeError and RuntimeErrors of cca.py realise InvalidArgument and
InvalidState; the numpy-level errors fall outside the taxonomy. -/
def PyError.inSpecTaxonomy : PyError → Bool
  | .attributeErrorXorXY | .runtimeErrorCovUndefined | .runtimeErrorMUndefined
  | .runtimeErrorNotSquare | .runtimeErrorOnlyCov | .runtimeErrorDim => true
  | .indexError | .valueErrorAmbiguous | .valueErrorBroadcast | .typeError => false

/-- Values the lags argument can take: Python None, a Python list of ints, or
a 1-D numpy integer array. -/
inductive PyLags where
  | noneL
  | list (xs : List Int)
  | array (xs : List Int)
deriving DecidableEq

/-- Python truth value of a lags value: None is false; a list is true iff
nonempty; a numpy array of one element has the truth value of that element,
an empty array is false, and a multi-element array raises ValueError
(ambiguous truth value). -/
def pyTruthy : PyLags → Except PyError Bool
  | .noneL => .ok false
  | .list xs => .ok (decide (xs ≠ []))
  | .array xs =>
    match xs with
    | [] => .ok false
    | [x] => .ok (decide (x ≠ 0))
    | _ => .error .valueErrorAmbiguous

/-- Python any((X, Y, lags)) as reached on the covariance path, where the
control flow guarantees X and Y are None (a present X takes the raw-data
branch first, and a present Y alone has already raised). -/
def pyAny3 (X Y : Option Unit) (lags : PyLags) : Except PyError Bool :=
  if X.isSome then .ok true
  else if Y.isSome then .ok true
  else pyTruthy lags

/-- Numpy array argument for C: a 1-D vector, a 2-D matrix, a 3-D stack of
pages (pages k is C[:, :, k]; a true ndarray gives all pages one shape), or
an array of four or more dimensions of which only the shape is relevant,
since the dimension check rejects it before any data access. -/
inductive NDArray where
  | arr1 (v : List ℚ)
  | arr2 (M : Mat)
  | arr3 (pages : List Mat)
  | arrN (shape : List Nat)
deriving DecidableEq

/-- Shape tuple of the array. -/
def NDArray.shapeList : NDArray → List Nat
  | .arr1 v => [v.length]
  | .arr2 M => [M.length, matCols M]
  | .arr3 p => [(p.headD []).length, matCols (p.headD []), p.length]
  | .arrN s => s

/-- Number of dimensions. -/
def NDArray.ndim (a : NDArray) : Nat := a.shapeList.length

/-- Reading shape[i]: out-of-range tuple indexing raises IndexError. -/
def NDArray.shapeAt (a : NDArray) (i : Nat) : Except PyError Nat :=
  if h : i < a.shapeList.length then .ok (a.shapeList.get ⟨i, h⟩)
  else .error .indexError

/-- Default eigenvalue-retention threshold, the literal 1e-12 of cca.py. -/
def threshDefault : ℚ := 1 / 10 ^ 12

/-- Default fudge factor of whiten, the literal 1e-18. -/
def fudgeDefault : ℚ := 1 / 10 ^ 18

/-- Covariance whitening function from noisetools (whiten_nt of cca.py):
eigendecompose, take real parts (the identity on real data), sort the
eigenvalue/eigenvector pairs descending, keep the directions whose ratio to
the maximum eigenvalue exceeds thresh via a boolean mask, raise the kept
eigenvalues to the power (1 - thresh), and return V[:, kept] times the
diagonal matrix of sqrt(1/d). -/
def whiten_nt (env : Env) (C : Mat) (th : ℚ) : Mat :=
  let dV := env.eigh C
  let V := dV.2
  let sorted := sortIdxDesc dV.1
  let ds := sorted.map (fun p => p.1)
  let idxs := sorted.map (fun p => p.2)
  let mx := npMax ds
  let keep := ds.map (fun x => decide (x / mx > th))
  let d2 := maskSelect ds keep
  let idx2 := maskSelect idxs keep
  let d3 := d2.map (fun x => env.rpow x (1 - th))
  let s := d3.map (fun x => env.sqrt (1 / x))
  V.map (fun row => List.zipWith (fun j sc => row.getD j 0 * sc) idx2 s)

/-- Generic eigen-based whitening (whiten of cca.py): V diag(1/sqrt(d + fudge)) Vt. -/
def whiten (env : Env) (C : Mat) (fudge : ℚ) : Mat :=
  let dV := env.eigh C
  let D := diagM (dV.1.map (fun x => 1 / env.sqrt (x + fudge)))
  matmul (matmul dV.2 D) (transposeM dV.2)

/-- SVD whitening (whiten_svd of cca.py): U Vt with the singular values discarded. -/
def whiten_svd (env : Env) (X : Mat) : Mat :=
  let usv := env.svd X
  matmul usv.1 usv.2.2

/-- ZCA whitening (whiten_zca of cca.py).  The thresh parameter defaults to
None in the source; the expression np.sqrt(S + thresh) then adds None to an
array, which raises TypeError before any result is produced. -/
def whiten_zca (env : Env) (C : Mat) (thresh : Option ℚ) : Except PyError Mat :=
  let usv := env.svd C
  match thresh with
  | none => .error .typeError
  | some t =>
    let D := diagM (usv.2.1.map (fun x => 1 / env.sqrt (x + t)))
    .ok (matmul (matmul usv.1 D) (transposeM usv.1))

/-- The 2-D core of nt_cca (cca.py lines 99-120): whiten the two diagonal
blocks, assemble the block-diagonal combined whitening matrix W by writing
the two transforms into a zero matrix, project C through W, run the joint
PCA, and rescale.  N is min of the column counts of the two whitening
transforms (Cxw.shape[1] and Cyw.shape[1]). -/
def nt_cca2D (env : Env) (C : Mat) (m : Nat) (th : ℚ) : Mat × Mat × List ℚ :=
  let Cxw := whiten_nt env (subTL C m) th
  let Cyw := whiten_nt env (subBR C m) th
  let W := setBlock
    (setBlock (zerosMat (Cxw.length + Cyw.length) (matCols Cxw + matCols Cyw)) 0 0 Cxw)
    Cxw.length (matCols Cxw) Cyw
  let Cp := matmul (matmul (transposeM W) C) W
  let N := min (matCols Cxw) (matCols Cyw)
  let Vd := env.pca Cp
  let A := matScale (matmul Cxw ((Vd.1.take (matCols Cxw)).map (fun r => r.take N))) (env.sqrt 2)
  let B := matScale (matmul Cyw ((Vd.1.drop (matCols Cxw)).map (fun r => r.take N))) (env.sqrt 2)
  let R := (Vd.2.take N).map (fun x => x - 1)
  (A, B, R)

/-- Numpy assignment A[:S.rows, :S.cols, k] = S into a zero page of the given
shape: succeeds (zero-padding, top-left) when S fits the page, raises the
broadcast ValueError otherwise.  Rows of the matrices produced by the core
are uniform in length; ragged input is rejected like a shape mismatch. -/
def embedTopLeft (rows cols : Nat) (S : Mat) : Except PyError Mat :=
  if S.length ≤ rows ∧ matCols S ≤ cols ∧ (∀ r ∈ S, r.length = matCols S) then
    .ok ((S.map (fun r => r ++ List.replicate (cols - r.length) 0))
      ++ List.replicate (rows - S.length) (List.replicate cols 0))
  else .error .valueErrorBroadcast

/-- Numpy assignment R[:, k] = RR of a full column of length n: succeeds when
the lengths agree, broadcasts a single value across the whole column when RR
has length one, and raises the broadcast ValueError otherwise. -/
def setColumnFull (n : Nat) (RR : List ℚ) : Except PyError (List ℚ) :=
  if RR.length = n then .ok RR
  else if RR.length = 1 then .ok (List.replicate n (RR.headD 0))
  else .error .valueErrorBroadcast

/-- One iteration of the 3-D dispatch loop of nt_cca: the recursive self-call
on the 2-D page re-runs argument checks that necessarily pass for a slice of
an already-validated square 3-D stack, so it reduces to the 2-D core; the
three slice assignments follow in source order. -/
def pageSlot (env : Env) (Ck : Mat) (m nChans N : Nat) (th : ℚ) :
    Except PyError (Mat × Mat × List ℚ) :=
  let t := nt_cca2D env Ck m th
  match embedTopLeft m N t.1 with
  | .error e => .error e
  | .ok Ak =>
    match embedTopLeft (nChans - m) N t.2.1 with
    | .error e => .error e
    | .ok Bk =>
      match setColumnFull N t.2.2 with
      | .error e => .error e
      | .ok Rk => .ok (Ak, Bk, Rk)

/-- The per-page loop over a 3-D covariance stack, left to right, aborting at
the first numpy error exactly as the Python loop does. -/
def pagesLoop (env : Env) (m nChans N : Nat) (th : ℚ) :
    List Mat → Except PyError (List (Mat × Mat × List ℚ))
  | [] => .ok []
  | Ck :: rest =>
    match pageSlot env Ck m nChans N th with
    | .error e => .error e
    | .ok t =>
      match pagesLoop env m nChans N th rest with
      | .error e => .error e
      | .ok l => .ok (t :: l)

/-- Result of nt_cca: a triple (A, B, R), 2-D or 3-D according to the input.
In the 3-D form the lag axis is represented page-wise: the k-th entries of
the three lists are A[:, :, k], B[:, :, k] and R[:, k]. -/
inductive CCAOut where
  | two (A B : Mat) (R : List ℚ)
  | three (A B : List Mat) (Rcols : List (List ℚ))
deriving DecidableEq

/-- The 3-D dispatch of nt_cca (cca.py lines 84-97): pre-size the zero-filled
outputs with N = min(m, n_chans - m) and fill one lag slot per page. -/
def nt_cca3D (env : Env) (pages : List Mat) (nChans m : Nat) (th : ℚ) :
    Except PyError CCAOut :=
  let N := min m (nChans - m)
  match pagesLoop env m nChans N th pages with
  | .error e => .error e
  | .ok l => .ok (.three (l.map (fun t => t.1)) (l.map (fun t => t.2.1)) (l.map (fun t => t.2.2)))

/-- The covariance-mode body of nt_cca (cca.py lines 73-120): the four
argument checks in source order, then dispatch on the dimensionality of C.
Reading C.shape[1] of a 1-D array raises IndexError inside the squareness
check, before the later checks are reached.  The final two fallthrough arms
are unreachable: a 1-D array has already raised IndexError, and an arrN
models an array of four or more dimensions, which the dimension check has
rejected. -/
def nt_cca_modeB (env : Env) (lags : PyLags) (C : Option NDArray) (m : Option Nat)
    (th : ℚ) : Except PyError CCAOut :=
  match C with
  | none => .error .runtimeErrorCovUndefined
  | some c =>
    match m with
    | none => .error .runtimeErrorMUndefined
    | some mv =>
      match c.shapeAt 0 with
      | .error e => .error e
      | .ok s0 =>
        match c.shapeAt 1 with
        | .error e => .error e
        | .ok s1 =>
          if s0 ≠ s1 then .error .runtimeErrorNotSquare
          else
            match pyAny3 none none lags with
            | .error e => .error e
            | .ok true => .error .runtimeErrorOnlyCov
            | .ok false =>
              if c.ndim > 3 then .error .runtimeErrorDim
              else
                match c with
                | .arr3 pages => nt_cca3D env pages s0 mv th
                | .arr2 M =>
                  let t := nt_cca2D env M mv th
                  .ok (.two t.1 t.2.1 t.2.2)
                | .arr1 _ => .error .indexError
                | .arrN _ => .error .runtimeErrorDim

/-- Top-level nt_cca (cca.py lines 9-120).  X and Y carry only their
presence; the raw-data mode hands the lags to the external covariance
collaborator and re-enters through the covariance mode, as the source does
through its recursive self-call with X = Y = lags = None. -/
def nt_cca (env : Env) (X Y : Option Unit) (lags : PyLags) (C : Option NDArray)
    (m : Option Nat) (thresh : Option ℚ) : Except PyError CCAOut :=
  let th := thresh.getD threshDefault
  if (X.isNone && Y.isSome) || (Y.isNone && X.isSome) then
    .error .attributeErrorXorXY
  else if X.isSome then
    nt_cca_modeB env .noneL (some (.arr2 env.covLags.1)) (some env.covLags.2) th
  else
    nt_cca_modeB env lags C m th

/-- Eigenvalues of C in the descending processing order of whiten_nt. -/
def sortedEigs (env : Env) (M : Mat) : List ℚ :=
  (sortIdxDesc (env.eigh M).1).map (fun p => p.1)

/-- Eigenvalue/index pairs that survive the rank-reduction step, written from
the spec wording: after the descending sort, drop every eigen-direction whose
eigenvalue-to-maximum-eigenvalue ratio is at most thresh. -/
def retainedPairs (env : Env) (M : Mat) (th : ℚ) : List (ℚ × Nat) :=
  (sortIdxDesc (env.eigh M).1).filter
    (fun p => !(decide (p.1 / npMax (sortedEigs env M) ≤ th)))

/-- Number of retained eigen-directions. -/
def retainedCount (env : Env) (M : Mat) (th : ℚ) : Nat :=
  (retainedPairs env M th).length

/-- Rank-reducing whitening written from the specification wording of
section 4.2: eigen-decompose symmetric C, take real parts, sort eigenvalues
descending, drop the eigen-directions whose ratio to the maximum eigenvalue
is at most thresh, raise the retained eigenvalues to the power (1 - thresh),
and return V diag(sqrt(1/d)), whose columns are the retained directions. -/
def whitenNtSpec (env : Env) (M : Mat) (th : ℚ) : Mat :=
  (env.eigh M).2.map
    (fun row => (retainedPairs env M th).map
      (fun p => row.getD p.2 0 * env.sqrt (1 / env.rpow p.1 (1 - th))))

/-- Block-diagonal assembly written from the specification wording: the
combined whitening matrix has the two transforms on the diagonal and zero
off-diagonal blocks. -/
def blockDiagSpec (S T : Mat) (cS cT : Nat) : Mat :=
  S.map (fun r => r ++ List.replicate cT 0)
    ++ T.map (fun r => List.replicate cS 0 ++ r)

/-- The 2-D core written from the wording of claim C2 and spec section 4.1:
A = Cxw V[:rank_x, :N] sqrt 2, B = Cyw V[rank_x:, :N] sqrt 2, R = d[:N] - 1,
with rank_x the column count of Cxw, N the minimum of the two column counts,
and (V, d) the PCA of Wt C W for the block-diagonal W. -/
def ccaCoreSpec (env : Env) (C : Mat) (m : Nat) (th : ℚ) : Mat × Mat × List ℚ :=
  let Cxw := whiten_nt env (subTL C m) th
  let Cyw := whiten_nt env (subBR C m) th
  let rankx := matCols Cxw
  let N := min rankx (matCols Cyw)
  let W := blockDiagSpec Cxw Cyw rankx (matCols Cyw)
  let Vd := env.pca (matmul (matmul (transposeM W) C) W)
  (matScale (matmul Cxw ((Vd.1.take rankx).map (fun r => r.take N))) (env.sqrt 2),
   matScale (matmul Cyw ((Vd.1.drop rankx).map (fun r => r.take N))) (env.sqrt 2),
   (Vd.2.take N).map (fun x => x - 1))

/-- Well-formedness of an eigendecomposition collaborator: one eigenvalue per
channel, and a square eigenvector matrix. -/
def EighWF (eigh : Mat → List ℚ × Mat) : Prop :=
  ∀ M, (eigh M).1.length = M.length ∧ (eigh M).2.length = M.length ∧
    ∀ r ∈ (eigh M).2, r.length = M.length

/-- Well-formedness of the joint-PCA collaborator of spec section 4.3: a
square eigenvector matrix and one eigenvalue per dimension. -/
def PcaWF (pca : Mat → Mat × List ℚ) : Prop :=
  ∀ M, (pca M).1.length = M.length ∧ (∀ r ∈ (pca M).1, r.length = M.length) ∧
    (pca M).2.length = M.length

/-- The thresholding step of whiten_nt removes no eigen-direction of M. -/
def noDrop (env : Env) (M : Mat) (th : ℚ) : Prop :=
  ∀ x ∈ sortedEigs env M, x / npMax (sortedEigs env M) > th

/-- Concrete collaborator instantiation used by witnesses and concrete
evaluations.  On the diagonal matrices these are exercised at, returning the
diagonal together with the identity basis is an exact eigendecomposition and
a valid joint-PCA output, and the scalar stand-ins for sqrt and power agree
with the true functions at the eigenvalues 0 and 1 that actually occur. -/
def testEnv : Env :=
  ⟨fun M => (diagOf M, identityM M.length),
   fun M => (identityM M.length, diagOf M, identityM M.length),
   fun M => (identityM M.length, diagOf M),
   fun x => x,
   fun x _ => x,
   ([], 0)⟩

lemma testEnv_eighWF : EighWF testEnv.eigh := by
  intro M
  refine ⟨by simp [testEnv, diagOf], by simp [testEnv, identityM], ?_⟩
  intro r hr
  simp only [testEnv, identityM, List.mem_map, List.mem_range] at hr
  obtain ⟨i, _, rfl⟩ := hr
  simp

lemma testEnv_pcaWF : PcaWF testEnv.pca := by
  intro M
  refine ⟨by simp [testEnv, identityM], ?_, by simp [testEnv, diagOf]⟩
  intro r hr
  simp only [testEnv, identityM, List.mem_map, List.mem_range] at hr
  obtain ⟨i, _, rfl⟩ := hr
  simp

/-- C5: whenever exactly one of X and Y is provided, nt_cca fails with the
AttributeError of the mutual-exclusivity check (the InvalidArgument of the
spec taxonomy), before any computation: the result does not depend on the
collaborators nor on C, m, lags or thresh. -/
theorem c5_xor_fails (env : Env) (X Y : Option Unit) (lags : PyLags)
    (C : Option NDArray) (m : Option Nat) (thresh : Option ℚ)
    (h : X.isSome ≠ Y.isSome) :
    nt_cca env X Y lags C m thresh = .error .attributeErrorXorXY := by
  cases X <;> cases Y
  · exact absurd rfl h
  · rfl
  · rfl
  · exact absurd rfl h

/-- Witness for C5: X present and Y absent at concrete arguments. -/
theorem c5_xor_fails_witness :
    (some () : Option Unit).isSome ≠ (none : Option Unit).isSome ∧
      nt_cca testEnv (some ()) none .noneL none none none
        = .error .attributeErrorXorXY :=
  ⟨by decide, c5_xor_fails testEnv (some ()) none .noneL none none none (by decide)⟩

/-- C9: a 1-D covariance array with X and Y omitted (and m present, so that
the squareness check is reached) fails with IndexError from reading
C.shape[1], an error outside the InvalidArgument/InvalidState/
NumericalFailure taxonomy; the result is this IndexError and not the
dimensionality RuntimeError, so the at-most-3-dimensions check is never the
failure produced. -/
theorem c9_oneD_indexError (env : Env) (v : List ℚ) (lags : PyLags) (m : Nat)
    (thresh : Option ℚ) :
    nt_cca env none none lags (some (.arr1 v)) (some m) thresh
        = .error .indexError
      ∧ PyError.indexError.inSpecTaxonomy = false
      ∧ PyError.indexError ≠ PyError.runtimeErrorDim :=
  ⟨rfl, rfl, by decide⟩

/-- C3 counterexample: the one-element numpy array lags = array([0]) is a
non-empty lags sequence, yet providing it together with C does not fail: its
Python truth value is false, so any((X, Y, lags)) passes and the call
succeeds. -/
theorem c3_counterexample :
    (nt_cca testEnv none none (.array [0]) (some (.arr2 [[1, 0], [0, 1]]))
      (some 1) none).isOk = true := by
  decide

/-- C7: whiten_zca invoked with its default thresh = None raises TypeError
(adding None to the singular-value array) on every input, here on the
well-formed symmetric matrix [[1, 0], [0, 1]]; the error is outside the
NumericalFailure route the claim allows. -/
theorem c7_zca_default_raises :
    whiten_zca testEnv [[1, 0], [0, 1]] none = .error .typeError
      ∧ PyError.typeError.inSpecTaxonomy = false :=
  ⟨rfl, rfl⟩

lemma maskSelect_map {α β : Type} (p : α → Bool) (g : α → β) :
    ∀ l : List α, maskSelect (l.map g) (l.map p) = (l.filter p).map g := by
  intro l
  induction l with
  | nil => rfl
  | cons a as ih =>
    by_cases h : p a
    · simp [maskSelect, List.filter_cons, h, ih]
    · simp [maskSelect, List.filter_cons, h, ih]

lemma zipWith_map_same {α β γ δ : Type} (k : β → γ → δ) (u : α → β) (v : α → γ) :
    ∀ l : List α, List.zipWith k (l.map u) (l.map v) = l.map (fun x => k (u x) (v x)) := by
  intro l
  induction l with
  | nil => rfl
  | cons a as ih => simp [ih]

lemma decide_gt_eq_not_decide_le (a b : ℚ) : decide (a > b) = !decide (a ≤ b) := by
  rw [← decide_not]
  exact decide_eq_decide.mpr not_le.symm

/-- The boolean-mask pruning of whiten_nt computes exactly the filter of the
sorted eigenvalue/index pairs described by the spec. -/
lemma whiten_nt_eq_spec (env : Env) (C : Mat) (th : ℚ) :
    whiten_nt env C th = whitenNtSpec env C th := by
  unfold whiten_nt whitenNtSpec retainedPairs sortedEigs
  simp only
  apply List.map_congr_left
  intro row _
  rw [List.map_map]
  rw [maskSelect_map (g := fun p : ℚ × Nat => p.1), maskSelect_map (g := fun p : ℚ × Nat => p.2)]
  rw [List.map_map, List.map_map, zipWith_map_same]
  rw [List.filter_congr (fun p _ => decide_gt_eq_not_decide_le
    (p.1 / npMax ((sortIdxDesc (env.eigh C).1).map (fun q => q.1))) th)]
  rfl

lemma sortIdxDesc_length (d : List ℚ) : (sortIdxDesc d).length = d.length := by
  unfold sortIdxDesc
  rw [List.length_reverse, List.length_insertionSort, List.length_zip,
    List.length_range, min_self]

lemma whiten_nt_length (env : Env) (C : Mat) (th : ℚ) :
    (whiten_nt env C th).length = (env.eigh C).2.length := by
  rw [whiten_nt_eq_spec]
  unfold whitenNtSpec
  rw [List.length_map]

lemma whiten_nt_row_length (env : Env) (C : Mat) (th : ℚ) :
    ∀ r ∈ whiten_nt env C th, r.length = retainedCount env C th := by
  rw [whiten_nt_eq_spec]
  intro r hr
  unfold whitenNtSpec at hr
  rw [List.mem_map] at hr
  obtain ⟨row, _, rfl⟩ := hr
  rw [List.length_map]
  rfl

lemma whiten_nt_cols (env : Env) (C : Mat) (th : ℚ)
    (h : (env.eigh C).2 ≠ []) :
    matCols (whiten_nt env C th) = retainedCount env C th := by
  rw [whiten_nt_eq_spec]
  unfold whitenNtSpec matCols retainedCount
  cases hV : (env.eigh C).2 with
  | nil => exact absurd hV h
  | cons r rs => simp

lemma whiten_nt_row_eq_cols (env : Env) (C : Mat) (th : ℚ) :
    ∀ r ∈ whiten_nt env C th, r.length = matCols (whiten_nt env C th) := by
  intro r hr
  have hne : (env.eigh C).2 ≠ [] := by
    intro hnil
    have : whiten_nt env C th = [] := by
      rw [whiten_nt_eq_spec]
      unfold whitenNtSpec
      rw [hnil]
      rfl
    rw [this] at hr
    exact absurd hr (List.not_mem_nil r)
  rw [whiten_nt_cols env C th hne]
  exact whiten_nt_row_length env C th r hr

lemma retainedCount_le (env : Env) (C : Mat) (th : ℚ) :
    retainedCount env C th ≤ (env.eigh C).1.length := by
  unfold retainedCount retainedPairs
  calc ((sortIdxDesc (env.eigh C).1).filter _).length
      ≤ (sortIdxDesc (env.eigh C).1).length := List.length_filter_le _ _
    _ = (env.eigh C).1.length := sortIdxDesc_length _

lemma zipWith_replicate_len {α γ β : Type} (f : α → γ → β) (c : γ) :
    ∀ l : List α, List.zipWith f l (List.replicate l.length c) = l.map (fun a => f a c) := by
  intro l
  induction l with
  | nil => rfl
  | cons a as ih => simp [List.replicate_succ, ih]

/-- Writing the two whitening transforms into a zero matrix of the combined
shape produces exactly the block-diagonal matrix of the spec wording. -/
lemma setBlock_blockDiag (S T : Mat) (cS cT : Nat)
    (hS : ∀ r ∈ S, r.length = cS) (hT : ∀ r ∈ T, r.length = cT) :
    setBlock (setBlock (zerosMat (S.length + T.length) (cS + cT)) 0 0 S)
        S.length cS T
      = blockDiagSpec S T cS cT := by
  unfold setBlock zerosMat blockDiagSpec
  have h1 : (List.replicate (S.length + T.length) (List.replicate (cS + cT) (0 : ℚ))).take 0
      = [] := by rw [List.take_zero]
  have htake : ((List.replicate (S.length + T.length) (List.replicate (cS + cT) (0 : ℚ))).drop 0).take S.length
      = List.replicate S.length (List.replicate (cS + cT) (0 : ℚ)) := by
    rw [List.drop_zero, List.take_replicate, min_eq_left (Nat.le_add_right _ _)]
  rw [h1, htake, List.nil_append]
  rw [zipWith_replicate_len]
  have hmapS : S.map (fun srow => overwriteFrom (List.replicate (cS + cT) (0 : ℚ)) 0 srow)
      = S.map (fun srow => srow ++ List.replicate cT 0) := by
    apply List.map_congr_left
    intro s hs
    unfold overwriteFrom
    rw [List.take_zero, List.nil_append, Nat.zero_add, hS s hs,
      List.drop_replicate, Nat.add_sub_cancel_left]
  rw [hmapS]
  have hdrop : (List.replicate (S.length + T.length) (List.replicate (cS + cT) (0 : ℚ))).drop (0 + S.length)
      = List.replicate T.length (List.replicate (cS + cT) (0 : ℚ)) := by
    rw [Nat.zero_add, List.drop_replicate, Nat.add_sub_cancel_left]
  rw [hdrop]
  have hlenpad : (S.map (fun srow => srow ++ List.replicate cT (0 : ℚ))).length = S.length := by
    rw [List.length_map]
  have htakeS : ((S.map (fun srow => srow ++ List.replicate cT (0 : ℚ)))
        ++ List.replicate T.length (List.replicate (cS + cT) (0 : ℚ))).take S.length
      = S.map (fun srow => srow ++ List.replicate cT 0) := by
    rw [List.take_append_of_le_length (by rw [hlenpad]), List.take_of_length_le (by rw [hlenpad])]
  have hdropS : ((S.map (fun srow => srow ++ List.replicate cT (0 : ℚ)))
        ++ List.replicate T.length (List.replicate (cS + cT) (0 : ℚ))).drop S.length
      = List.replicate T.length (List.replicate (cS + cT) (0 : ℚ)) := by
    rw [← hlenpad, List.drop_left]
  rw [htakeS, hdropS, List.take_replicate, min_self, zipWith_replicate_len]
  have hmapT : T.map (fun trow => overwriteFrom (List.replicate (cS + cT) (0 : ℚ)) cS trow)
      = T.map (fun trow => List.replicate cS 0 ++ trow) := by
    apply List.map_congr_left
    intro t ht
    unfold overwriteFrom
    rw [List.take_replicate, min_eq_left (Nat.le_add_right _ _), hT t ht,
      List.drop_replicate, Nat.sub_self, List.replicate_zero, List.append_nil]
  rw [hmapT]
  have hdropT : (List.replicate T.length (List.replicate (cS + cT) (0 : ℚ))).drop T.length = [] := by
    rw [List.drop_replicate, Nat.sub_self, List.replicate_zero]
  have hdropAll : ((S.map (fun srow => srow ++ List.replicate cT (0 : ℚ)))
        ++ List.replicate T.length (List.replicate (cS + cT) (0 : ℚ))).drop (S.length + T.length)
      = [] := by
    rw [← hlenpad, List.drop_append, hdropT]
  rw [hdropAll, List.append_nil]

/-- The 2-D core of the source equals the spec-worded core: the only textual
difference is the assembly of the combined whitening matrix, settled by
setBlock_blockDiag. -/
lemma nt_cca2D_eq_spec (env : Env) (C : Mat) (m : Nat) (th : ℚ) :
    nt_cca2D env C m th = ccaCoreSpec env C m th := by
  unfold nt_cca2D ccaCoreSpec
  simp only
  rw [setBlock_blockDiag _ _ _ _ (whiten_nt_row_eq_cols env (subTL C m) th)
    (whiten_nt_row_eq_cols env (subBR C m) th)]

lemma matmul_length (A B : Mat) : (matmul A B).length = A.length := by
  unfold matmul
  rw [List.length_map]

lemma transposeM_length (M : Mat) : (transposeM M).length = matCols M := by
  unfold transposeM
  rw [List.length_map, List.length_range]

lemma matmul_cols (A B : Mat) (hA : A ≠ []) : matCols (matmul A B) = matCols B := by
  cases A with
  | nil => exact absurd rfl hA
  | cons a as =>
    show ((transposeM B).map (fun col => dotL a col)).length = matCols B
    rw [List.length_map, transposeM_length]

lemma matScale_length (M : Mat) (c : ℚ) : (matScale M c).length = M.length := by
  unfold matScale
  rw [List.length_map]

lemma matScale_cols (M : Mat) (c : ℚ) : matCols (matScale M c) = matCols M := by
  cases M with
  | nil => rfl
  | cons r rs =>
    show (r.map (fun x => x * c)).length = r.length
    rw [List.length_map]

lemma matCols_map_take (L : Mat) (N : Nat) :
    matCols (L.map (fun r => r.take N)) = min N (matCols L) := by
  cases L with
  | nil => exact (Nat.min_zero N).symm
  | cons r rs =>
    show (r.take N).length = min N r.length
    rw [List.length_take]

lemma matCols_take (L : Mat) (k : Nat) (hk : 0 < k) :
    matCols (L.take k) = matCols L := by
  cases L with
  | nil => rw [List.take_nil]
  | cons r rs =>
    cases k with
    | zero => exact absurd hk (lt_irrefl 0)
    | succ k2 => rfl

lemma matCols_eq_of_rows (L : Mat) (c : Nat) (hne : L ≠ [])
    (hrows : ∀ r ∈ L, r.length = c) : matCols L = c := by
  cases L with
  | nil => exact absurd rfl hne
  | cons r rs => exact hrows r (List.mem_cons_self r rs)

lemma blockDiag_matCols (S T : Mat) (cS cT : Nat)
    (hS : ∀ r ∈ S, r.length = cS) (hSne : S ≠ []) :
    matCols (blockDiagSpec S T cS cT) = cS + cT := by
  cases S with
  | nil => exact absurd rfl hSne
  | cons s ss =>
    show (s ++ List.replicate cT (0 : ℚ)).length = cS + cT
    rw [List.length_append, List.length_replicate, hS s (List.mem_cons_self s ss)]

lemma len_R_generic (pca : Mat → Mat × List ℚ) (hpca : PcaWF pca) (Cp : Mat)
    (cx cy : Nat) (hCp : Cp.length = cx + cy) :
    (((pca Cp).2.take (min cx cy)).map (fun x => x - (1 : ℚ))).length = min cx cy := by
  rw [List.length_map, List.length_take, (hpca Cp).2.2, hCp]
  exact min_eq_left (le_trans (min_le_left _ _) (Nat.le_add_right _ _))

lemma cols_A_generic (pca : Mat → Mat × List ℚ) (hpca : PcaWF pca) (Cxw Cp : Mat)
    (cy : Nat) (hCxwne : Cxw ≠ []) (hCp : Cp.length = matCols Cxw + cy) (s2 : ℚ) :
    matCols (matScale (matmul Cxw
        (((pca Cp).1.take (matCols Cxw)).map (fun r => r.take (min (matCols Cxw) cy)))) s2)
      = min (matCols Cxw) cy := by
  rw [matScale_cols, matmul_cols _ _ hCxwne, matCols_map_take]
  rcases Nat.eq_zero_or_pos (matCols Cxw) with h0 | hpos
  · rw [h0]
    simp
  · rw [matCols_take _ _ hpos]
    have hne : (pca Cp).1 ≠ [] := List.length_pos.mp (by
      rw [(hpca Cp).1, hCp]
      omega)
    rw [matCols_eq_of_rows ((pca Cp).1) (matCols Cxw + cy) hne
      (fun r hr => ((hpca Cp).2.1 r hr).trans hCp)]
    exact min_eq_left (le_trans (min_le_left _ _) (Nat.le_add_right _ _))

lemma cols_B_generic (pca : Mat → Mat × List ℚ) (hpca : PcaWF pca) (Cyw Cp : Mat)
    (cx : Nat) (hCywne : Cyw ≠ []) (hCp : Cp.length = cx + matCols Cyw) (s2 : ℚ) :
    matCols (matScale (matmul Cyw
        (((pca Cp).1.drop cx).map (fun r => r.take (min cx (matCols Cyw))))) s2)
      = min cx (matCols Cyw) := by
  rw [matScale_cols, matmul_cols _ _ hCywne, matCols_map_take]
  rcases Nat.eq_zero_or_pos (matCols Cyw) with h0 | hpos
  · rw [h0]
    simp
  · have hdropne : (pca Cp).1.drop cx ≠ [] := List.length_pos.mp (by
      rw [List.length_drop, (hpca Cp).1, hCp]
      omega)
    have hrows : ∀ r ∈ (pca Cp).1.drop cx, r.length = cx + matCols Cyw :=
      fun r hr => ((hpca Cp).2.1 r (List.mem_of_mem_drop hr)).trans hCp
    rw [matCols_eq_of_rows _ (cx + matCols Cyw) hdropne hrows]
    exact min_eq_left (le_trans (min_le_right _ _) (Nat.le_add_left _ _))

/-- Shapes of the 2-D core outputs: the R length and the column counts of A
and B all equal N, the minimum of the two whitening column counts. -/
lemma nt_cca2D_shapes (env : Env) (C : Mat) (m : Nat) (th : ℚ)
    (heigh : EighWF env.eigh) (hpca : PcaWF env.pca)
    (hm0 : 0 < m) (hmn : m < C.length) :
    (nt_cca2D env C m th).2.2.length
        = min (matCols (whiten_nt env (subTL C m) th))
            (matCols (whiten_nt env (subBR C m) th))
      ∧ matCols (nt_cca2D env C m th).1
        = min (matCols (whiten_nt env (subTL C m) th))
            (matCols (whiten_nt env (subBR C m) th))
      ∧ matCols (nt_cca2D env C m th).2.1
        = min (matCols (whiten_nt env (subTL C m) th))
            (matCols (whiten_nt env (subBR C m) th)) := by
  have hCxwlen : (whiten_nt env (subTL C m) th).length = m := by
    rw [whiten_nt_length, (heigh (subTL C m)).2.1]
    unfold subTL
    rw [List.length_map, List.length_take, min_eq_left (le_of_lt hmn)]
  have hCywlen : (whiten_nt env (subBR C m) th).length = C.length - m := by
    rw [whiten_nt_length, (heigh (subBR C m)).2.1]
    unfold subBR
    rw [List.length_map, List.length_drop]
  have hCxwne : whiten_nt env (subTL C m) th ≠ [] :=
    List.length_pos.mp (by rw [hCxwlen]; exact hm0)
  have hCywne : whiten_nt env (subBR C m) th ≠ [] :=
    List.length_pos.mp (by rw [hCywlen]; exact Nat.sub_pos_of_lt hmn)
  have hWcols : matCols (blockDiagSpec (whiten_nt env (subTL C m) th)
      (whiten_nt env (subBR C m) th) (matCols (whiten_nt env (subTL C m) th))
      (matCols (whiten_nt env (subBR C m) th)))
      = matCols (whiten_nt env (subTL C m) th)
        + matCols (whiten_nt env (subBR C m) th) :=
    blockDiag_matCols _ _ _ _ (whiten_nt_row_eq_cols env (subTL C m) th) hCxwne
  refine ⟨?_, ?_, ?_⟩
  · rw [nt_cca2D_eq_spec]
    simp only [ccaCoreSpec]
    apply len_R_generic env.pca hpca
    rw [matmul_length, matmul_length, transposeM_length]
    exact hWcols
  · rw [nt_cca2D_eq_spec]
    simp only [ccaCoreSpec]
    apply cols_A_generic env.pca hpca _ _ _ hCxwne
    rw [matmul_length, matmul_length, transposeM_length]
    exact hWcols
  · rw [nt_cca2D_eq_spec]
    simp only [ccaCoreSpec]
    apply cols_B_generic env.pca hpca _ _ _ hCywne
    rw [matmul_length, matmul_length, transposeM_length]
    exact hWcols

/-- When no eigen-direction is dropped, whiten_nt keeps one column per
eigenvalue. -/
lemma retainedCount_of_noDrop (env : Env) (M : Mat) (th : ℚ)
    (h : noDrop env M th) :
    retainedCount env M th = (env.eigh M).1.length := by
  unfold retainedCount retainedPairs
  rw [List.filter_eq_self.mpr ?_, sortIdxDesc_length]
  intro p hp
  have hmem : p.1 ∈ sortedEigs env M := by
    unfold sortedEigs
    exact List.mem_map_of_mem (fun q => q.1) hp
  have hgt := h p.1 hmem
  rw [decide_eq_false (not_le.mpr hgt)]
  rfl

/-- C6: for the 2-D core on a nonempty split of a covariance block, the
number of canonical components, which is both the length of R and the column
count of A and of B, is at most min(m, n_chans - m), with equality whenever
the thresholding step removes no eigen-direction of either block. -/
theorem c6_rank_bound (env : Env) (C : Mat) (m : Nat) (th : ℚ)
    (heigh : EighWF env.eigh) (hpca : PcaWF env.pca)
    (hm0 : 0 < m) (hmn : m < C.length) :
    (nt_cca2D env C m th).2.2.length ≤ min m (C.length - m)
      ∧ matCols (nt_cca2D env C m th).1 = (nt_cca2D env C m th).2.2.length
      ∧ matCols (nt_cca2D env C m th).2.1 = (nt_cca2D env C m th).2.2.length
      ∧ ((noDrop env (subTL C m) th ∧ noDrop env (subBR C m) th) →
          (nt_cca2D env C m th).2.2.length = min m (C.length - m)) := by
  obtain ⟨hR, hA, hB⟩ := nt_cca2D_shapes env C m th heigh hpca hm0 hmn
  have hsubTLlen : (subTL C m).length = m := by
    unfold subTL
    rw [List.length_map, List.length_take, min_eq_left (le_of_lt hmn)]
  have hsubBRlen : (subBR C m).length = C.length - m := by
    unfold subBR
    rw [List.length_map, List.length_drop]
  have hVxne : (env.eigh (subTL C m)).2 ≠ [] :=
    List.length_pos.mp (by rw [(heigh (subTL C m)).2.1, hsubTLlen]; exact hm0)
  have hVyne : (env.eigh (subBR C m)).2 ≠ [] :=
    List.length_pos.mp (by
      rw [(heigh (subBR C m)).2.1, hsubBRlen]
      exact Nat.sub_pos_of_lt hmn)
  have hcx_le : matCols (whiten_nt env (subTL C m) th) ≤ m := by
    rw [whiten_nt_cols env (subTL C m) th hVxne]
    calc retainedCount env (subTL C m) th
        ≤ (env.eigh (subTL C m)).1.length := retainedCount_le env (subTL C m) th
      _ = m := by rw [(heigh (subTL C m)).1, hsubTLlen]
  have hcy_le : matCols (whiten_nt env (subBR C m) th) ≤ C.length - m := by
    rw [whiten_nt_cols env (subBR C m) th hVyne]
    calc retainedCount env (subBR C m) th
        ≤ (env.eigh (subBR C m)).1.length := retainedCount_le env (subBR C m) th
      _ = C.length - m := by rw [(heigh (subBR C m)).1, hsubBRlen]
  refine ⟨?_, hA.trans hR.symm, hB.trans hR.symm, ?_⟩
  · rw [hR]
    exact min_le_min hcx_le hcy_le
  · rintro ⟨hnx, hny⟩
    have hcx_eq : matCols (whiten_nt env (subTL C m) th) = m := by
      rw [whiten_nt_cols env (subTL C m) th hVxne,
        retainedCount_of_noDrop env (subTL C m) th hnx,
        (heigh (subTL C m)).1, hsubTLlen]
    have hcy_eq : matCols (whiten_nt env (subBR C m) th) = C.length - m := by
      rw [whiten_nt_cols env (subBR C m) th hVyne,
        retainedCount_of_noDrop env (subBR C m) th hny,
        (heigh (subBR C m)).1, hsubBRlen]
    rw [hR, hcx_eq, hcy_eq]

lemma foldr_max_mem (l : List ℚ) : ∀ c : ℚ, l.foldr max c = c ∨ l.foldr max c ∈ l := by
  induction l with
  | nil => intro c; exact Or.inl rfl
  | cons a as ih =>
    intro c
    rcases max_choice a (as.foldr max c) with h | h
    · right
      rw [List.foldr_cons, h]
      exact List.mem_cons_self a as
    · rcases ih c with h2 | h2
      · left
        rw [List.foldr_cons, h, h2]
      · right
        rw [List.foldr_cons, h]
        exact List.mem_cons_of_mem a h2

lemma npMax_mem (l : List ℚ) (h : l ≠ []) : npMax l ∈ l := by
  unfold npMax
  rcases foldr_max_mem l (l.headD 0) with h1 | h1
  · rw [h1]
    cases l with
    | nil => exact absurd rfl h
    | cons a as => exact List.mem_cons_self a as
  · exact h1

/-- The eigen-direction realizing the maximum eigenvalue has ratio one, which
exceeds every thresh below one, so at least one direction is retained. -/
lemma retainedCount_pos (env : Env) (M : Mat) (th : ℚ) (hth : th < 1)
    (hx : 0 < npMax (sortedEigs env M)) : 0 < retainedCount env M th := by
  unfold retainedCount retainedPairs
  have hne : sortedEigs env M ≠ [] := by
    intro h
    rw [h] at hx
    exact absurd hx (lt_irrefl 0)
  have hmem : npMax (sortedEigs env M) ∈ sortedEigs env M := npMax_mem _ hne
  unfold sortedEigs at hmem
  rw [List.mem_map] at hmem
  obtain ⟨p, hp, hpeq⟩ := hmem
  have hpred : (!decide (p.1 / npMax (sortedEigs env M) ≤ th)) = true := by
    have hp1 : p.1 = npMax (sortedEigs env M) := hpeq
    rw [hp1, div_self (ne_of_gt hx), decide_eq_false (not_le.mpr hth)]
    rfl
  exact List.length_pos_of_mem (List.mem_filter.mpr ⟨hp, hpred⟩)

lemma whiten_nt_cols_pos (env : Env) (M : Mat) (th : ℚ) (heigh : EighWF env.eigh)
    (hth : th < 1) (hx : 0 < npMax (sortedEigs env M)) :
    0 < matCols (whiten_nt env M th) := by
  have hdne : (env.eigh M).1 ≠ [] := by
    intro h
    have hnil : sortedEigs env M = [] := by
      unfold sortedEigs sortIdxDesc
      rw [h]
      rfl
    rw [hnil] at hx
    exact absurd hx (lt_irrefl 0)
  have hVne : (env.eigh M).2 ≠ [] := by
    apply List.length_pos.mp
    rw [(heigh M).2.1, ← (heigh M).1]
    exact List.length_pos.mpr hdne
  rw [whiten_nt_cols env M th hVne]
  exact retainedCount_pos env M th hth hx

/-- C10: with thresh below one, whiten_nt always retains the leading
eigen-direction of any input whose largest eigenvalue is positive, so its
transform has at least one column; consequently the 2-D core with both
blocks of positive largest eigenvalue returns a nonempty R. -/
theorem c10_never_empty (env : Env) (C : Mat) (m : Nat) (th : ℚ)
    (heigh : EighWF env.eigh) (hpca : PcaWF env.pca)
    (hm0 : 0 < m) (hmn : m < C.length) (hth : th < 1)
    (hx : 0 < npMax (sortedEigs env (subTL C m)))
    (hy : 0 < npMax (sortedEigs env (subBR C m))) :
    (∀ M, 0 < npMax (sortedEigs env M) → 0 < matCols (whiten_nt env M th))
      ∧ (nt_cca2D env C m th).2.2 ≠ [] := by
  constructor
  · intro M hM
    exact whiten_nt_cols_pos env M th heigh hth hM
  · obtain ⟨hR, -, -⟩ := nt_cca2D_shapes env C m th heigh hpca hm0 hmn
    apply List.length_pos.mp
    rw [hR]
    exact lt_min (whiten_nt_cols_pos env _ th heigh hth hx)
      (whiten_nt_cols_pos env _ th heigh hth hy)

/-- C4: whiten_nt eigen-decomposes C, takes real parts, sorts descending,
drops every eigen-direction whose eigenvalue-to-maximum ratio is at most
thresh, raises the retained eigenvalues to the power (1 - thresh), and
returns V diag(sqrt(1/d)): it equals the spec-worded pipeline, has one row
per channel, and its rows have exactly one entry per retained direction,
whose count never exceeds the eigenvalue count. -/
theorem c4_whiten_nt_pipeline (env : Env) (C : Mat) (th : ℚ)
    (heigh : EighWF env.eigh) :
    whiten_nt env C th = whitenNtSpec env C th
      ∧ (whiten_nt env C th).length = C.length
      ∧ (∀ r ∈ whiten_nt env C th, r.length = retainedCount env C th)
      ∧ retainedCount env C th ≤ (env.eigh C).1.length :=
  ⟨whiten_nt_eq_spec env C th,
   by rw [whiten_nt_length, (heigh C).2.1],
   whiten_nt_row_length env C th,
   retainedCount_le env C th⟩

/-- Witness for C4 at a concrete symmetric matrix and the default thresh. -/
theorem c4_whiten_nt_pipeline_witness :
    whiten_nt testEnv [[2, 0], [0, 1]] threshDefault
        = whitenNtSpec testEnv [[2, 0], [0, 1]] threshDefault
      ∧ (whiten_nt testEnv [[2, 0], [0, 1]] threshDefault).length = 2
      ∧ (∀ r ∈ whiten_nt testEnv [[2, 0], [0, 1]] threshDefault,
          r.length = retainedCount testEnv [[2, 0], [0, 1]] threshDefault)
      ∧ retainedCount testEnv [[2, 0], [0, 1]] threshDefault ≤ 2 :=
  c4_whiten_nt_pipeline testEnv [[2, 0], [0, 1]] threshDefault testEnv_eighWF

/-- C2: on every 2-D square covariance and split, the core of nt_cca returns
exactly A = Cxw V[:rank_x, :N] sqrt 2, B = Cyw V[rank_x:, :N] sqrt 2 and
R = d[:N] - 1 for the block-diagonal whitening W with zero off-diagonal
blocks, as stated by ccaCoreSpec. -/
theorem c2_core_exact (env : Env) (C : Mat) (m : Nat) (th : ℚ) :
    nt_cca2D env C m th = ccaCoreSpec env C m th :=
  nt_cca2D_eq_spec env C m th

/-- Witness for C6 at a 2-by-2 identity covariance split at m = 1. -/
theorem c6_rank_bound_witness :
    (nt_cca2D testEnv [[1, 0], [0, 1]] 1 threshDefault).2.2.length ≤ min 1 1
      ∧ matCols (nt_cca2D testEnv [[1, 0], [0, 1]] 1 threshDefault).1
          = (nt_cca2D testEnv [[1, 0], [0, 1]] 1 threshDefault).2.2.length
      ∧ matCols (nt_cca2D testEnv [[1, 0], [0, 1]] 1 threshDefault).2.1
          = (nt_cca2D testEnv [[1, 0], [0, 1]] 1 threshDefault).2.2.length
      ∧ ((noDrop testEnv (subTL [[1, 0], [0, 1]] 1) threshDefault
            ∧ noDrop testEnv (subBR [[1, 0], [0, 1]] 1) threshDefault) →
          (nt_cca2D testEnv [[1, 0], [0, 1]] 1 threshDefault).2.2.length = min 1 1) :=
  c6_rank_bound testEnv [[1, 0], [0, 1]] 1 threshDefault testEnv_eighWF testEnv_pcaWF
    (by decide) (by decide)

/-- Witness for C10 at a 2-by-2 identity covariance, thresh one half. -/
theorem c10_never_empty_witness :
    (∀ M, 0 < npMax (sortedEigs testEnv M)
        → 0 < matCols (whiten_nt testEnv M (1 / 2)))
      ∧ (nt_cca2D testEnv [[1, 0], [0, 1]] 1 (1 / 2)).2.2 ≠ [] :=
  c10_never_empty testEnv [[1, 0], [0, 1]] 1 (1 / 2) testEnv_eighWF testEnv_pcaWF
    (by decide) (by decide) (by norm_num) (by decide) (by decide)

/-- Concrete whitening of the full-rank 3-by-3 identity block under the test
collaborators: all three eigenvalues are retained (each ratio is 1, above the
default threshold) and the transform keeps the three basis directions in the
descending tie order of the model. -/
lemma whiten_I3 :
    whiten_nt testEnv [[(1 : ℚ), 0, 0], [0, 1, 0], [0, 0, 1]] threshDefault
      = [[0, 0, 1], [0, 1, 0], [1, 0, 0]] := by
  norm_num [whiten_nt, testEnv, diagOf, identityM, sortIdxDesc,
    List.insertionSort, List.orderedInsert, npMax, maskSelect, threshDefault,
    List.range_succ]

/-- Concrete whitening of the rank-2 block diag(0, 1, 1): the zero eigenvalue
has ratio 0, at most the default threshold, so only two directions remain. -/
lemma whiten_D3 :
    whiten_nt testEnv [[(0 : ℚ), 0, 0], [0, 1, 0], [0, 0, 1]] threshDefault
      = [[0, 0], [0, 1], [1, 0]] := by
  norm_num [whiten_nt, testEnv, diagOf, identityM, sortIdxDesc,
    List.insertionSort, List.orderedInsert, npMax, maskSelect, threshDefault,
    List.range_succ]

/-- C1 (code bug): on a 3-D stack whose second page has effective ranks 2
and 3 (its Cxx block diag(0,1,1) loses one direction to the threshold while
its Cyy block is full rank), the page produces an R of 2 entries while the
pre-sized column has N = min(3, 6 - 3) = 3; the assignment R[:, k] = RR is a
full-column write, not a top-left write like those used for A and B, so the
call raises the numpy broadcast ValueError instead of leaving exactly-zero
trailing entries in R. -/
theorem c1_R_not_padded :
    nt_cca testEnv none none .noneL
        (some (.arr3 [identityM 6,
          [[0, 0, 0, 0, 0, 0], [0, 1, 0, 0, 0, 0], [0, 0, 1, 0, 0, 0],
           [0, 0, 0, 1, 0, 0], [0, 0, 0, 0, 1, 0], [0, 0, 0, 0, 0, 1]]]))
        (some 3) none
      = .error .valueErrorBroadcast := by
  show nt_cca3D testEnv [identityM 6,
          [[0, 0, 0, 0, 0, 0], [0, 1, 0, 0, 0, 0], [0, 0, 1, 0, 0, 0],
           [0, 0, 0, 1, 0, 0], [0, 0, 0, 0, 1, 0], [0, 0, 0, 0, 0, 1]]] 6 3 threshDefault
      = .error .valueErrorBroadcast
  simp only [nt_cca3D, pagesLoop, pageSlot, nt_cca2D]
  rw [show subTL (identityM 6) 3 = [[(1 : ℚ), 0, 0], [0, 1, 0], [0, 0, 1]] from rfl,
    show subBR (identityM 6) 3 = [[(1 : ℚ), 0, 0], [0, 1, 0], [0, 0, 1]] from rfl,
    show subTL [[(0 : ℚ), 0, 0, 0, 0, 0], [0, 1, 0, 0, 0, 0], [0, 0, 1, 0, 0, 0],
      [0, 0, 0, 1, 0, 0], [0, 0, 0, 0, 1, 0], [0, 0, 0, 0, 0, 1]] 3
      = [[(0 : ℚ), 0, 0], [0, 1, 0], [0, 0, 1]] from rfl,
    show subBR [[(0 : ℚ), 0, 0, 0, 0, 0], [0, 1, 0, 0, 0, 0], [0, 0, 1, 0, 0, 0],
      [0, 0, 0, 1, 0, 0], [0, 0, 0, 0, 1, 0], [0, 0, 0, 0, 0, 1]] 3
      = [[(1 : ℚ), 0, 0], [0, 1, 0], [0, 0, 1]] from rfl,
    whiten_I3, whiten_D3]
  rfl

lemma pyAny3_none_none (lags : PyLags) : pyAny3 none none lags = pyTruthy lags := rfl

/-- C3 (amended): in covariance mode each precondition violation, with the
others held, fails with its own distinct RuntimeError of the
InvalidArgument/InvalidState taxonomy -- C absent; m absent; C non-square;
C of more than 3 dimensions -- and the five errors are pairwise distinct.
The mutual-exclusivity check, however, fires on the Python truth value of
lags, not on its mere presence: a lags value whose truth value is true (any
non-empty list, or a one-element array with non-zero entry) fails as the
claim states, a multi-element array raises the ambiguous-truth-value
ValueError, which lies outside the taxonomy, and a non-empty lags whose
truth value is false (the one-element zero array) is accepted alongside C. -/
theorem c3_amended :
    (∀ (env : Env) (lags : PyLags) (m : Nat) (th : ℚ),
        nt_cca env none none lags none (some m) (some th)
          = .error .runtimeErrorCovUndefined)
      ∧ (∀ (env : Env) (c : NDArray) (th : ℚ),
        nt_cca env none none .noneL (some c) none (some th)
          = .error .runtimeErrorMUndefined)
      ∧ (∀ (env : Env) (c : NDArray) (m : Nat) (th : ℚ) (a b : Nat),
        c.shapeAt 0 = .ok a → c.shapeAt 1 = .ok b → a ≠ b →
        nt_cca env none none .noneL (some c) (some m) (some th)
          = .error .runtimeErrorNotSquare)
      ∧ (∀ (env : Env) (lags : PyLags) (c : NDArray) (m : Nat) (th : ℚ) (a : Nat),
        c.shapeAt 0 = .ok a → c.shapeAt 1 = .ok a → pyTruthy lags = .ok true →
        nt_cca env none none lags (some c) (some m) (some th)
          = .error .runtimeErrorOnlyCov)
      ∧ (∀ (env : Env) (c : NDArray) (m : Nat) (th : ℚ) (a : Nat),
        c.shapeAt 0 = .ok a → c.shapeAt 1 = .ok a → c.ndim > 3 →
        nt_cca env none none .noneL (some c) (some m) (some th)
          = .error .runtimeErrorDim)
      ∧ (∀ (env : Env) (lags : PyLags) (c : NDArray) (m : Nat) (th : ℚ) (a : Nat),
        c.shapeAt 0 = .ok a → c.shapeAt 1 = .ok a →
        pyTruthy lags = .error .valueErrorAmbiguous →
        nt_cca env none none lags (some c) (some m) (some th)
          = .error .valueErrorAmbiguous
          ∧ PyError.valueErrorAmbiguous.inSpecTaxonomy = false)
      ∧ List.Pairwise (fun e f => e ≠ f)
          [PyError.runtimeErrorCovUndefined, PyError.runtimeErrorMUndefined,
           PyError.runtimeErrorNotSquare, PyError.runtimeErrorOnlyCov,
           PyError.runtimeErrorDim] := by
  refine ⟨?_, ?_, ?_, ?_, ?_, ?_, ?_⟩
  · intro env lags m th
    rfl
  · intro env c th
    rfl
  · intro env c m th a b h0 h1 hab
    show nt_cca_modeB env .noneL (some c) (some m) th = _
    unfold nt_cca_modeB
    dsimp only
    rw [h0, h1]
    simp only
    rw [if_pos hab]
  · intro env lags c m th a h0 h1 hlt
    show nt_cca_modeB env lags (some c) (some m) th = _
    unfold nt_cca_modeB
    dsimp only
    rw [h0, h1]
    simp only
    rw [if_neg (fun h => h rfl), pyAny3_none_none, hlt]
  · intro env c m th a h0 h1 hdim
    show nt_cca_modeB env .noneL (some c) (some m) th = _
    unfold nt_cca_modeB
    dsimp only
    rw [h0, h1]
    simp only
    rw [if_neg (fun h => h rfl)]
    show (if c.ndim > 3 then _ else _) = _
    rw [if_pos hdim]
  · intro env lags c m th a h0 h1 hamb
    refine ⟨?_, rfl⟩
    show nt_cca_modeB env lags (some c) (some m) th = _
    unfold nt_cca_modeB
    dsimp only
    rw [h0, h1]
    simp only
    rw [if_neg (fun h => h rfl), pyAny3_none_none, hamb]
  · decide

/-- Witness for C3 at concrete inputs: a truthy non-empty list of lags
together with a square 2-D covariance fails with the mutual-exclusivity
RuntimeError. -/
theorem c3_amended_witness :
    nt_cca testEnv none none (.list [1]) (some (.arr2 [[1, 0], [0, 1]])) (some 1)
        (some threshDefault) = .error .runtimeErrorOnlyCov :=
  c3_amended.2.2.2.1 testEnv (.list [1]) (.arr2 [[1, 0], [0, 1]]) 1 threshDefault 2
    rfl rfl rfl
